import Mathlib

/-!
Verification development for the portfolio landing page.

The development shallowly embeds the two non-trivial parts of the repository:

* `src/src/components/ScrollOverlay.tsx` (and its twin in `src/unnamed/part_000`):
  the math helpers (`clamp`, `lerp`, `ramp`), the scroll-progress constants
  (`EXTRA_SLICES_SCROLL`, `MAX_P`, `SLICE_START`), the capture/release state
  machine (`startCapturingIfNeeded`, `endCapturingIfNeeded`, `applyDelta` and
  the shared body of the `onWheel`/`onTouchMove` handlers, here `handleDelta`),
  and the late reveal window (`revealT`, `visibleChars`).

* `src/unnamed/part_001` (`FlowingDescription`): the slot model (`FlowSlot`),
  slot merging (`effectiveSlots`), the greedy word wrapper used by `layoutAt`
  (`wrapLine`/`wrapSlot`), the per-slot line capacity (`capLines`,
  `slotMaxLines`), flow-mode and independent-mode layout (`layoutAt`,
  `layoutAtIndependent`) and the auto-sizing search of `recalc`
  (`autoGo`, `autoSizeSearch`, `recalcAuto`).

JavaScript numbers are modelled by `ℚ`; DOM text measurement
(`meas.offsetWidth` for a given font size and string) is an explicit
parameter `measure : ℚ → String → ℚ` of the layout configuration.
A detail that matters below: inside one wheel/touch event the handlers of
`ScrollOverlay` read the React state variable `p` captured by the effect
closure; `setP` only changes the value seen by the next event.  The embedding
therefore passes the pre-event `p` to `endCapturingIfNeeded`, exactly as the
closure does.
-/

namespace Portfolio

/-! ## ScrollOverlay.tsx: math utilities (lines 11-17) -/

/-- Source `clamp(v, min = 0, max = 1)` = `Math.min(Math.max(v, min), max)`. -/
def clamp (v : ℚ) (lo : ℚ := 0) (hi : ℚ := 1) : ℚ := min (max v lo) hi

/-- Source `lerp(a, b, t)` = `a + (b - a) * t`. -/
def lerp (a b t : ℚ) : ℚ := a + (b - a) * t

/-- Source `ramp(v, inStart, inEnd)`: maps `v` in `[inStart, inEnd]` to `[0,1]`,
clamped; when `inEnd === inStart` it returns 1 for `v >= inEnd` and 0 otherwise. -/
def ramp (v inStart inEnd : ℚ) : ℚ :=
  if inEnd = inStart then (if inEnd ≤ v then 1 else 0)
  else clamp ((v - inStart) / (inEnd - inStart))

/-! ## ScrollOverlay.tsx: constants (lines 26-28, 246) -/

/-- Source `EXTRA_SLICES_SCROLL = 1.0`. -/
def EXTRA_SLICES_SCROLL : ℚ := 1

/-- Source `MAX_P = 1 + EXTRA_SLICES_SCROLL`. -/
def MAX_P : ℚ := 1 + EXTRA_SLICES_SCROLL

/-- Source `SLICE_START = 0.92`. -/
def SLICE_START : ℚ := 92 / 100

/-- Source `SLICE_END = MAX_P` (line 246). -/
def SLICE_END : ℚ := MAX_P

/-! ## ScrollOverlay.tsx: capture/release state machine (lines 24-135)

The machine state consists of the React state `p`, the ref
`isCapturingRef.current` and the body scroll lock applied by `setBodyLocked`. -/

/-- State of the scroll overlay: progress scalar, capture ref, body scroll lock. -/
structure OverlayMachine where
  p : ℚ
  isCapturing : Bool
  scrollLocked : Bool
deriving DecidableEq

/-- Source `startCapturingIfNeeded(deltaY)` (lines 58-65): when not capturing
and `(p > 0 && p < MAX_P) || (p === 0 && deltaY > 0) || (p === MAX_P && deltaY < 0)`,
set the capture ref and lock body scroll. -/
def startCapturingIfNeeded (s : OverlayMachine) (deltaY : ℚ) : OverlayMachine :=
  if s.isCapturing = false then
    if (0 < s.p ∧ s.p < MAX_P) ∨ (s.p = 0 ∧ 0 < deltaY) ∨ (s.p = MAX_P ∧ deltaY < 0) then
      { s with isCapturing := true, scrollLocked := true }
    else s
  else s

/-- Source `endCapturingIfNeeded(dy)` (lines 67-82): release only when at a
bound and scrolling away from the overlay.  The `p` it reads is the React
state captured by the effect closure, i.e. the pre-event progress. -/
def endCapturingIfNeeded (s : OverlayMachine) (dy : ℚ) : OverlayMachine :=
  if s.p ≤ 0 ∧ dy < 0 then { s with isCapturing := false, scrollLocked := false }
  else if MAX_P ≤ s.p ∧ 0 < dy then { s with isCapturing := false, scrollLocked := false }
  else s

/-- Source `applyDelta(dy)` (lines 84-93): with
`viewport = Math.max(window.innerHeight, 1)` and `factor = 1 / (viewport * 4)`,
the next progress is `Math.min(Math.max(p + dy * factor, 0), MAX_P)`. -/
def applyDelta (viewportH p dy : ℚ) : ℚ :=
  min (max (p + dy * (1 / (max viewportH 1 * 4))) 0) MAX_P

/-- Common body of `onWheel` (lines 95-111) and `onTouchMove` (lines 117-130)
once the raw event has been normalized to a pixel delta `dy`:
`startCapturingIfNeeded(dy)`; if capturing, `next = applyDelta(dy)` and, when
`next <= 0 || next >= MAX_P`, `endCapturingIfNeeded(dy)`.  The closure value of
`p` (the pre-event progress `s.p`) is what `applyDelta` and
`endCapturingIfNeeded` read; `setP next` only takes effect afterwards. -/
def handleDelta (viewportH : ℚ) (s : OverlayMachine) (dy : ℚ) : OverlayMachine :=
  if (startCapturingIfNeeded s dy).isCapturing = true then
    if applyDelta viewportH s.p dy ≤ 0 ∨ MAX_P ≤ applyDelta viewportH s.p dy then
      { endCapturingIfNeeded (startCapturingIfNeeded s dy) dy with p := applyDelta viewportH s.p dy }
    else
      { startCapturingIfNeeded s dy with p := applyDelta viewportH s.p dy }
  else startCapturingIfNeeded s dy

/-! ## ScrollOverlay.tsx: late reveal window (lines 246-247, 351-352) and
FlowingDescription (`src/unnamed/part_001`, lines 196-198). -/

/-- Source `revealT = clamp((p - SLICE_START) / (SLICE_END - SLICE_START))`. -/
def revealT (p : ℚ) : ℚ := clamp ((p - SLICE_START) / (SLICE_END - SLICE_START))

/-- Source `visibleChars = Math.floor(totalChars * revealT)`
(`src/unnamed/part_001` line 198; same formula as `charCount` in
`ScrollOverlay.tsx` line 352). -/
def visibleChars (totalChars : ℕ) (t : ℚ) : ℤ := Int.floor ((totalChars : ℚ) * t)

/-! ## FlowingDescription (`src/unnamed/part_001`): data model -/

/-- Source `FlowSlot` (lines 5-11): a rectangle in viewport-relative units with
an optional line cap (`maxLines?: number`). -/
structure FlowSlot where
  leftVw : ℚ
  topVh : ℚ
  widthVw : ℚ
  heightVh : ℚ
  maxLines : Option ℕ := none
deriving DecidableEq

/-- Layout configuration: the viewport size read by `recalc`
(`window.innerWidth` / `window.innerHeight`) plus the DOM text measurement,
`measure sizePx text` standing for `meas.offsetWidth` after
`meas.style.fontSize = sizePx + "px"; meas.textContent = text`. -/
structure FlowConfig where
  vw : ℚ
  vh : ℚ
  lineHeight : ℚ
  measure : ℚ → String → ℚ

/-- Source `layoutAt`: `slotPxW = (slot.widthVw / 100) * vw`. -/
def slotPxW (cfg : FlowConfig) (slot : FlowSlot) : ℚ := slot.widthVw / 100 * cfg.vw

/-- Source `layoutAt`: `slotPxH = (slot.heightVh / 100) * vh`. -/
def slotPxH (cfg : FlowConfig) (slot : FlowSlot) : ℚ := slot.heightVh / 100 * cfg.vh

/-- Source `capLines = Math.max(1, Math.floor(slotPxH / (sizePx * lineHeight)))`
(lines 93 and 133). -/
def capLines (cfg : FlowConfig) (sizePx : ℚ) (slot : FlowSlot) : ℕ :=
  (max 1 (Int.floor (slotPxH cfg slot / (sizePx * cfg.lineHeight)))).toNat

/-- Source `maxLines = slot.maxLines ? Math.min(capLines, slot.maxLines) : capLines`
(lines 94 and 134); a `maxLines` of 0 is falsy in JavaScript and is ignored. -/
def slotMaxLines (cfg : FlowConfig) (sizePx : ℚ) (slot : FlowSlot) : ℕ :=
  match slot.maxLines with
  | some m => if m = 0 then capLines cfg sizePx slot else min (capLines cfg sizePx slot) m
  | none => capLines cfg sizePx slot

/-- Source `independentMode = Array.isArray(slotTexts) && slotTexts.length === slots.length`
(line 56). -/
def independentMode (slotTexts : Option (List String)) (slots : List FlowSlot) : Bool :=
  match slotTexts with
  | some ts => ts.length == slots.length
  | none => false

/-- `Math.min` over a nonempty list of rationals, as a left fold. -/
def listMin (a : ℚ) (l : List ℚ) : ℚ := l.foldl min a

/-- `Math.max` over a nonempty list of rationals, as a left fold. -/
def listMax (a : ℚ) (l : List ℚ) : ℚ := l.foldl max a

/-- Source `effectiveSlots` (lines 62-70): never merge in independent mode;
return the slots unchanged when `!collapseToSingle || slots.length <= 1`;
otherwise replace them by the single bounding slot
`{leftVw: min left, topVh: min top, widthVw: max right - min left,
heightVh: max bottom - min top}` (no `maxLines` on the merged slot). -/
def effectiveSlots (slotTexts : Option (List String)) (collapseToSingle : Bool)
    (slots : List FlowSlot) : List FlowSlot :=
  if independentMode slotTexts slots = true then slots
  else if collapseToSingle = false ∨ slots.length ≤ 1 then slots
  else
    match slots with
    | [] => slots
    | s0 :: rest =>
      [{ leftVw := listMin s0.leftVw (rest.map (fun s => s.leftVw))
         topVh := listMin s0.topVh (rest.map (fun s => s.topVh))
         widthVw := listMax (s0.leftVw + s0.widthVw) (rest.map (fun s => s.leftVw + s.widthVw)) -
           listMin s0.leftVw (rest.map (fun s => s.leftVw))
         heightVh := listMax (s0.topVh + s0.heightVh) (rest.map (fun s => s.topVh + s.heightVh)) -
           listMin s0.topVh (rest.map (fun s => s.topVh))
         maxLines := none }]

/-! ## FlowingDescription: the greedy per-slot word wrapper

Source `layoutAt` contains the same `while` loop twice (independent mode,
lines 98-115, and flow mode, lines 139-157).  Per iteration the loop either
appends the next word to the current line (when the measured tentative line
fits the slot width) or closes a line.  `wrapLine` performs the run of
appends of one line; `wrapSlot` closes lines until the word stream or the
line budget (`maxLines`) is exhausted, and finally pushes a nonempty current
line if the budget allows (`if (current && slotLines.length < maxLines)`).
It returns the produced lines and the words left unconsumed. -/

/-- One line-filling run of the source loop: keep appending words to
`current` (`tentative = current ? current + " " + nextWord : nextWord`)
while `measure tentative ≤ W`; stop at the first word that does not fit
or when the words run out. -/
def wrapLine (m : String → ℚ) (W : ℚ) : List String → String → String × List String
  | [], current => (current, [])
  | w :: ws, current =>
    if m (if current = "" then w else current ++ " " ++ w) ≤ W then
      wrapLine m W ws (if current = "" then w else current ++ " " ++ w)
    else (current, w :: ws)

/-- The per-slot wrapping loop with line budget `b` (`maxLines` minus the
lines already closed).  On overflow with a nonempty current line the line is
closed and the word retried on the next line; on overflow with an empty
current line the single word is forced onto its own line
(`slotLines.push(nextWord)`).  Returns (closed lines, unconsumed words). -/
def wrapSlot (m : String → ℚ) (W : ℚ) : ℕ → List String → String → List String × List String
  | 0, ws, _ => ([], ws)
  | b + 1, ws, current =>
    match wrapLine m W ws current with
    | (cur, []) => (if cur = "" then [] else [cur], [])
    | (cur, w :: rest) =>
      if cur = "" then
        (w :: (wrapSlot m W b rest "").1, (wrapSlot m W b rest "").2)
      else
        (cur :: (wrapSlot m W b (w :: rest) "").1, (wrapSlot m W b (w :: rest) "").2)

/-! ## FlowingDescription: flow-mode layout (`layoutAt`, lines 80-164) -/

/-- Result of `layoutAt`: `{ lines, allWordsFit, fillRatio, sizePx }`. -/
structure LayoutResult where
  lines : List (List String)
  allWordsFit : Bool
  fillRatio : ℚ
  sizePx : ℚ
deriving DecidableEq

/-- Accumulator of the flow-mode slot loop: produced lines per slot,
`capacityTotal`, `usedLinesTotal`, and the words not yet consumed. -/
structure FlowAcc where
  lines : List (List String)
  capacityTotal : ℕ
  usedLinesTotal : ℕ
  remaining : List String
deriving DecidableEq

/-- Source insertion sort for `(forcedBreakWordIndices || []).slice().sort((a,b)=>a-b)`. -/
def insertSorted (n : ℕ) : List ℕ → List ℕ
  | [] => [n]
  | m :: ms => if n ≤ m then n :: m :: ms else m :: insertSorted n ms

/-- Ascending sort of the forced break indices. -/
def sortBreaks (l : List ℕ) : List ℕ := l.foldr insertSorted []

/-- Flow-mode slot loop (source lines 128-160): each slot wraps words from the
shared stream, limited by `wordLimit = breaks[sIdx] ?? Infinity` (an exclusive
global word index, modelled by handing the slot only the words below the
limit and deferring the rest to the next slot). -/
def flowSlotsGo (cfg : FlowConfig) (sizePx : ℚ) (breaks : List ℕ) :
    List FlowSlot → ℕ → List String → ℕ → FlowAcc
  | [], _, ws, _ => ⟨[], 0, 0, ws⟩
  | slot :: rest, sIdx, ws, wIdx =>
    let maxL := slotMaxLines cfg sizePx slot
    let slotWs := match breaks[sIdx]? with
      | some limit => ws.take (limit - wIdx)
      | none => ws
    let deferred := match breaks[sIdx]? with
      | some limit => ws.drop (limit - wIdx)
      | none => []
    let r := wrapSlot (cfg.measure sizePx) (slotPxW cfg slot) maxL slotWs ""
    let acc := flowSlotsGo cfg sizePx breaks rest (sIdx + 1) (r.2 ++ deferred)
      (wIdx + (slotWs.length - r.2.length))
    ⟨r.1 :: acc.lines, maxL + acc.capacityTotal, r.1.length + acc.usedLinesTotal,
      acc.remaining⟩

/-- Source flow-mode `layoutAt(sizePx)` (lines 80-164): wrap the shared word
stream through the slots and report `allWordsFit` (`words.length === wIdx`),
`fillRatio = usedLinesTotal / Math.max(1, capacityTotal)` and the size. -/
def layoutAt (cfg : FlowConfig) (words : List String) (slots : List FlowSlot)
    (forcedBreakWordIndices : List ℕ) (sizePx : ℚ) : LayoutResult :=
  { lines := (flowSlotsGo cfg sizePx (sortBreaks forcedBreakWordIndices) slots 0 words 0).lines
    allWordsFit := (flowSlotsGo cfg sizePx (sortBreaks forcedBreakWordIndices) slots 0 words 0).remaining.isEmpty
    fillRatio := ((flowSlotsGo cfg sizePx (sortBreaks forcedBreakWordIndices) slots 0 words 0).usedLinesTotal : ℚ) /
      max 1 ((flowSlotsGo cfg sizePx (sortBreaks forcedBreakWordIndices) slots 0 words 0).capacityTotal : ℚ)
    sizePx := sizePx }

/-! ## FlowingDescription: independent-mode layout (lines 85-125) -/

/-- Accumulator of the independent-mode slot loop. -/
structure IndepAcc where
  lines : List (List String)
  capacityTotal : ℕ
  usedLinesTotal : ℕ
  fit : Bool
deriving DecidableEq

/-- Independent-mode slot loop (source lines 87-122): each slot wraps its own
word list; if a slot cannot place all of its words the loop returns early
with `allWordsFit: false` and the lines and capacities accumulated so far. -/
def indepGo (cfg : FlowConfig) (sizePx : ℚ) :
    List FlowSlot → List (List String) → IndepAcc
  | [], _ => ⟨[], 0, 0, true⟩
  | _ :: _, [] => ⟨[], 0, 0, true⟩
  | slot :: srest, ws :: wrest =>
    let maxL := slotMaxLines cfg sizePx slot
    let r := wrapSlot (cfg.measure sizePx) (slotPxW cfg slot) maxL ws ""
    if r.2.isEmpty then
      let acc := indepGo cfg sizePx srest wrest
      ⟨r.1 :: acc.lines, maxL + acc.capacityTotal, r.1.length + acc.usedLinesTotal, acc.fit⟩
    else
      ⟨[r.1], maxL, r.1.length, false⟩

/-- Source independent-mode `layoutAt(sizePx)` (lines 85-125). -/
def layoutAtIndependent (cfg : FlowConfig) (slotWordLists : List (List String))
    (slots : List FlowSlot) (sizePx : ℚ) : LayoutResult :=
  { lines := (indepGo cfg sizePx slots slotWordLists).lines
    allWordsFit := (indepGo cfg sizePx slots slotWordLists).fit
    fillRatio := ((indepGo cfg sizePx slots slotWordLists).usedLinesTotal : ℚ) /
      max 1 ((indepGo cfg sizePx slots slotWordLists).capacityTotal : ℚ)
    sizePx := sizePx }

/-! ## FlowingDescription: the auto-sizing search of `recalc` (lines 175-184) -/

/-- The `for (let sz = minFontPx + 1; sz <= maxFontPx; sz += 1)` loop of
`recalc`: stop (keeping `best`) past `maxFontPx` or when the attempt does not
fit all words; return the attempt when it reaches the target fill ratio;
otherwise continue with `best = attempt`.  The fuel argument only bounds the
iteration count and is chosen large enough at the call site. -/
def autoGo (layout : ℕ → LayoutResult) (target : ℚ) (maxFontPx : ℕ) :
    ℕ → LayoutResult → ℕ → LayoutResult
  | 0, best, _ => best
  | fuel + 1, best, sz =>
    if maxFontPx < sz then best
    else if (layout sz).allWordsFit = false then best
    else if target ≤ (layout sz).fillRatio then layout sz
    else autoGo layout target maxFontPx fuel (layout sz) (sz + 1)

/-- Source auto-size search (lines 175-182): `best = layoutAt(minFontPx)`,
then grow one pixel at a time. -/
def autoSizeSearch (layout : ℕ → LayoutResult) (target : ℚ) (minFontPx maxFontPx : ℕ) :
    LayoutResult :=
  autoGo layout target maxFontPx (maxFontPx + 1 - minFontPx) (layout minFontPx) (minFontPx + 1)

/-- The auto-sizing part of source `recalc` in flow mode: search sizes for
`layoutAt` with the given configuration, text and forced breaks. -/
def recalcAuto (cfg : FlowConfig) (words : List String) (slots : List FlowSlot)
    (forcedBreakWordIndices : List ℕ) (target : ℚ) (minFontPx maxFontPx : ℕ) :
    LayoutResult :=
  autoSizeSearch (fun n => layoutAt cfg words slots forcedBreakWordIndices (n : ℚ))
    target minFontPx maxFontPx

/-! ## Helper lemmas about the state machine -/

theorem factor_pos (v : ℚ) : 0 < 1 / (max v 1 * 4) := by
  have h1 : (0 : ℚ) < max v 1 := lt_of_lt_of_le one_pos (le_max_right v 1)
  have h4 : (0 : ℚ) < max v 1 * 4 := by positivity
  exact one_div_pos.mpr h4

theorem MAX_P_eq : MAX_P = 2 := by norm_num [MAX_P, EXTRA_SLICES_SCROLL]

theorem applyDelta_nonneg (v p dy : ℚ) : 0 ≤ applyDelta v p dy := by
  unfold applyDelta
  exact le_min (le_max_right _ _) (by rw [MAX_P_eq]; norm_num)

theorem applyDelta_le_max (v p dy : ℚ) : applyDelta v p dy ≤ MAX_P :=
  min_le_right _ _

theorem startCapturing_p (s : OverlayMachine) (dy : ℚ) :
    (startCapturingIfNeeded s dy).p = s.p := by
  unfold startCapturingIfNeeded
  split
  · split <;> rfl
  · rfl

theorem startCapturing_of_capturing (s : OverlayMachine) (dy : ℚ)
    (h : s.isCapturing = true) : startCapturingIfNeeded s dy = s := by
  unfold startCapturingIfNeeded
  rw [h]
  simp

theorem endCapturing_keep (s : OverlayMachine) (dy : ℚ)
    (h1 : ¬(s.p ≤ 0 ∧ dy < 0)) (h2 : ¬(MAX_P ≤ s.p ∧ 0 < dy)) :
    endCapturingIfNeeded s dy = s := by
  unfold endCapturingIfNeeded
  rw [if_neg h1, if_neg h2]

/-- If the machine is capturing after `startCapturingIfNeeded` and the
pre-event progress is not at a bound with an outward delta, the event keeps
capture and the lock unchanged, whatever the updated progress is. -/
theorem handleDelta_keep (v : ℚ) (s : OverlayMachine) (dy : ℚ)
    (hcap : (startCapturingIfNeeded s dy).isCapturing = true)
    (h1 : ¬(s.p ≤ 0 ∧ dy < 0)) (h2 : ¬(MAX_P ≤ s.p ∧ 0 < dy)) :
    (handleDelta v s dy).isCapturing = true ∧
    (handleDelta v s dy).scrollLocked = (startCapturingIfNeeded s dy).scrollLocked := by
  have hend : endCapturingIfNeeded (startCapturingIfNeeded s dy) dy =
      startCapturingIfNeeded s dy := by
    apply endCapturing_keep
    · rw [startCapturing_p]; exact h1
    · rw [startCapturing_p]; exact h2
  unfold handleDelta
  rw [if_pos hcap, hend]
  split
  · exact ⟨hcap, rfl⟩
  · exact ⟨hcap, rfl⟩

/-- When the pre-event progress is at/under 0 with a further-negative delta
and the machine is capturing, the event releases capture and the lock. -/
theorem handleDelta_release_low (v : ℚ) (s : OverlayMachine) (dy : ℚ)
    (hcap : s.isCapturing = true) (hp : s.p ≤ 0) (hdy : dy < 0) :
    handleDelta v s dy = ⟨0, false, false⟩ := by
  have hs1 : startCapturingIfNeeded s dy = s := startCapturing_of_capturing s dy hcap
  have hf : 0 < 1 / (max v 1 * 4) := factor_pos v
  have hq : s.p + dy * (1 / (max v 1 * 4)) < 0 :=
    add_neg_of_nonpos_of_neg hp (mul_neg_of_neg_of_pos hdy hf)
  have hnext : applyDelta v s.p dy = 0 := by
    unfold applyDelta
    rw [max_eq_right hq.le]
    rw [MAX_P_eq]; norm_num
  unfold handleDelta
  rw [hs1, if_pos hcap, hnext, if_pos (Or.inl le_rfl)]
  unfold endCapturingIfNeeded
  rw [if_pos ⟨hp, hdy⟩]

/-- When the pre-event progress is at/over `MAX_P` with a further-positive
delta and the machine is capturing, the event releases capture and the lock. -/
theorem handleDelta_release_high (v : ℚ) (s : OverlayMachine) (dy : ℚ)
    (hcap : s.isCapturing = true) (hp : MAX_P ≤ s.p) (hdy : 0 < dy) :
    handleDelta v s dy = ⟨MAX_P, false, false⟩ := by
  have hs1 : startCapturingIfNeeded s dy = s := startCapturing_of_capturing s dy hcap
  have hf : 0 < 1 / (max v 1 * 4) := factor_pos v
  have hq : MAX_P ≤ s.p + dy * (1 / (max v 1 * 4)) := by
    have := mul_pos hdy hf
    linarith
  have hq0 : (0 : ℚ) ≤ s.p + dy * (1 / (max v 1 * 4)) := by
    rw [MAX_P_eq] at hq; linarith
  have hnext : applyDelta v s.p dy = MAX_P := by
    unfold applyDelta
    rw [max_eq_left hq0, min_eq_right hq]
  unfold handleDelta
  rw [hs1, if_pos hcap, hnext, if_pos (Or.inr le_rfl)]
  unfold endCapturingIfNeeded
  have hn1 : ¬(s.p ≤ 0 ∧ dy < 0) := by
    rintro ⟨h, _⟩
    rw [MAX_P_eq] at hp; linarith
  rw [if_neg hn1, if_pos ⟨hp, hdy⟩]

/-- Each event either leaves the progress unchanged (no capture) or replaces
it by the clamped `applyDelta` value. -/
theorem handleDelta_p_cases (v : ℚ) (s : OverlayMachine) (dy : ℚ) :
    (handleDelta v s dy).p = s.p ∨ (handleDelta v s dy).p = applyDelta v s.p dy := by
  unfold handleDelta
  split
  · split
    · right; rfl
    · right; rfl
  · left; exact startCapturing_p s dy

theorem handleDelta_p_of_capturing (v : ℚ) (s : OverlayMachine) (dy : ℚ)
    (hcap : (startCapturingIfNeeded s dy).isCapturing = true) :
    (handleDelta v s dy).p = applyDelta v s.p dy := by
  unfold handleDelta
  rw [if_pos hcap]
  split
  · rfl
  · rfl

/-! ## Claim C9: properties of `ramp` -/

/-- C9: for fixed `s < e`, `ramp(v, s, e)` is monotone non-decreasing in `v`,
is exactly 0 for `v ≤ s` and exactly 1 for `v ≥ e`; in the degenerate case
`s = e` it returns 1 when `v ≥ e` and 0 otherwise. -/
theorem C9_ramp_spec (s e : ℚ) (hse : s < e) :
    (∀ v₁ v₂ : ℚ, v₁ ≤ v₂ → ramp v₁ s e ≤ ramp v₂ s e) ∧
    (∀ v : ℚ, v ≤ s → ramp v s e = 0) ∧
    (∀ v : ℚ, e ≤ v → ramp v s e = 1) ∧
    (∀ c v : ℚ, (c ≤ v → ramp v c c = 1) ∧ (v < c → ramp v c c = 0)) := by
  have hne : e ≠ s := ne_of_gt hse
  have hpos : (0 : ℚ) < e - s := sub_pos.mpr hse
  refine ⟨?_, ?_, ?_, ?_⟩
  · intro v₁ v₂ h
    unfold ramp clamp
    rw [if_neg hne, if_neg hne]
    have hdiv : (v₁ - s) / (e - s) ≤ (v₂ - s) / (e - s) :=
      (div_le_div_iff_of_pos_right hpos).mpr (by linarith)
    exact min_le_min (max_le_max hdiv le_rfl) le_rfl
  · intro v hv
    unfold ramp clamp
    rw [if_neg hne]
    have hq : (v - s) / (e - s) ≤ 0 := (div_le_iff₀ hpos).mpr (by linarith)
    rw [max_eq_right hq, min_eq_left (by norm_num)]
  · intro v hv
    unfold ramp clamp
    rw [if_neg hne]
    have hq : (1 : ℚ) ≤ (v - s) / (e - s) := (le_div_iff₀ hpos).mpr (by linarith)
    have hq0 : (0 : ℚ) ≤ (v - s) / (e - s) := le_trans (by norm_num) hq
    rw [max_eq_left hq0, min_eq_right hq]
  · intro c v
    constructor
    · intro h
      unfold ramp
      rw [if_pos rfl, if_pos h]
    · intro h
      unfold ramp
      rw [if_pos rfl, if_neg (not_le.mpr h)]

/-- C9 witness: the `ramp` properties evaluated at concrete inputs. -/
theorem C9_witness :
    ramp (1/4 : ℚ) 0 1 ≤ ramp (1/2 : ℚ) 0 1 ∧ ramp (-1 : ℚ) 0 1 = 0 ∧
    ramp (2 : ℚ) 0 1 = 1 ∧ ramp (5 : ℚ) 3 3 = 1 ∧ ramp (2 : ℚ) 3 3 = 0 :=
  ⟨(C9_ramp_spec 0 1 (by norm_num)).1 _ _ (by norm_num),
   (C9_ramp_spec 0 1 (by norm_num)).2.1 _ (by norm_num),
   (C9_ramp_spec 0 1 (by norm_num)).2.2.1 _ (by norm_num),
   ((C9_ramp_spec 0 1 (by norm_num)).2.2.2 3 5).1 (by norm_num),
   ((C9_ramp_spec 0 1 (by norm_num)).2.2.2 3 2).2 (by norm_num)⟩

/-! ## Helper lemmas about the greedy wrapper -/

theorem wrapLine_fst (m : String → ℚ) (W : ℚ) :
    ∀ (ws : List String) (current : String),
      (wrapLine m W ws current).1 = current ∨ m (wrapLine m W ws current).1 ≤ W := by
  intro ws
  induction ws with
  | nil => intro current; left; rfl
  | cons w ws ih =>
    intro current
    unfold wrapLine
    by_cases hc : m (if current = "" then w else current ++ " " ++ w) ≤ W
    · rw [if_pos hc]
      rcases ih (if current = "" then w else current ++ " " ++ w) with h1 | h1
      · right; rw [h1]; exact hc
      · right; exact h1
    · rw [if_neg hc]
      left; rfl

theorem wrapLine_snd_mem (m : String → ℚ) (W : ℚ) :
    ∀ (ws : List String) (current x : String),
      x ∈ (wrapLine m W ws current).2 → x ∈ ws := by
  intro ws
  induction ws with
  | nil => intro current x hx; exact absurd hx (List.not_mem_nil x)
  | cons w ws ih =>
    intro current x hx
    unfold wrapLine at hx
    by_cases hc : m (if current = "" then w else current ++ " " ++ w) ≤ W
    · rw [if_pos hc] at hx
      exact List.mem_cons_of_mem w (ih _ x hx)
    · rw [if_neg hc] at hx
      exact hx

theorem wrapLine_overflow (m : String → ℚ) (W : ℚ) :
    ∀ (ws : List String) (current cur w : String) (rest : List String),
      wrapLine m W ws current = (cur, w :: rest) →
      ¬ m (if cur = "" then w else cur ++ " " ++ w) ≤ W := by
  intro ws
  induction ws with
  | nil =>
    intro current cur w rest h
    unfold wrapLine at h
    injection h with h1 h2
    simp at h2
  | cons w0 ws ih =>
    intro current cur w rest h
    unfold wrapLine at h
    by_cases hc : m (if current = "" then w0 else current ++ " " ++ w0) ≤ W
    · rw [if_pos hc] at h
      exact ih _ cur w rest h
    · rw [if_neg hc] at h
      injection h with h1 h2
      injection h2 with h3 h4
      rw [← h1, ← h3]
      exact hc

theorem wrapSlot_length (m : String → ℚ) (W : ℚ) :
    ∀ (b : ℕ) (ws : List String) (current : String),
      (wrapSlot m W b ws current).1.length ≤ b := by
  intro b
  induction b with
  | zero => intro ws current; simp [wrapSlot]
  | succ b ih =>
    intro ws current
    unfold wrapSlot
    rcases hw : wrapLine m W ws current with ⟨cur, rest⟩
    cases rest with
    | nil =>
      dsimp only
      split
      · simp
      · simp
    | cons w rest =>
      dsimp only
      split
      · simp only [List.length_cons]
        exact Nat.succ_le_succ (ih rest "")
      · simp only [List.length_cons]
        exact Nat.succ_le_succ (ih (w :: rest) "")

theorem wrapSlot_lines (m : String → ℚ) (W : ℚ) :
    ∀ (b : ℕ) (ws : List String) (current : String),
      (current = "" ∨ m current ≤ W) →
      ∀ l ∈ (wrapSlot m W b ws current).1, m l ≤ W ∨ l ∈ ws := by
  intro b
  induction b with
  | zero => intro ws current _ l hl; simp [wrapSlot] at hl
  | succ b ih =>
    intro ws current hcur l hl
    unfold wrapSlot at hl
    rcases hw : wrapLine m W ws current with ⟨cur, rest⟩
    rw [hw] at hl
    have hfst : cur = current ∨ m cur ≤ W := by
      rcases wrapLine_fst m W ws current with h1 | h1
      · left; rw [hw] at h1; exact h1
      · right; rw [hw] at h1; exact h1
    have hcurW : cur ≠ "" → m cur ≤ W := by
      intro hne
      rcases hfst with h1 | h1
      · rcases hcur with h2 | h2
        · rw [h1] at hne; exact absurd h2 hne
        · rw [h1]; exact h2
      · exact h1
    cases rest with
    | nil =>
      dsimp only at hl
      split at hl
      · simp at hl
      · rename_i hne
        rw [List.mem_singleton] at hl
        subst hl
        left
        exact hcurW hne
    | cons w rest2 =>
      dsimp only at hl
      split at hl
      · rw [List.mem_cons] at hl
        rcases hl with hl | hl
        · subst hl
          right
          apply wrapLine_snd_mem m W ws current
          rw [hw]
          exact List.mem_cons_self _ _
        · rcases ih rest2 "" (Or.inl rfl) l hl with h1 | h1
          · left; exact h1
          · right
            apply wrapLine_snd_mem m W ws current
            rw [hw]
            exact List.mem_cons_of_mem w h1
      · rename_i hne
        rw [List.mem_cons] at hl
        rcases hl with hl | hl
        · subst hl
          left
          exact hcurW hne
        · rcases ih (w :: rest2) "" (Or.inl rfl) l hl with h1 | h1
          · left; exact h1
          · right
            apply wrapLine_snd_mem m W ws current
            rw [hw]
            exact h1

theorem wrapSlot_nil_words (m : String → ℚ) (W : ℚ) :
    ∀ b : ℕ, wrapSlot m W b [] "" = ([], []) := by
  intro b
  cases b with
  | zero => rfl
  | succ b => simp [wrapSlot, wrapLine]

/-! ## Helper lemmas about the per-slot layouts -/

theorem flowSlotsGo_lines_length (cfg : FlowConfig) (sizePx : ℚ) (breaks : List ℕ) :
    ∀ (slots : List FlowSlot) (sIdx : ℕ) (ws : List String) (wIdx : ℕ),
      ∀ pr ∈ ((flowSlotsGo cfg sizePx breaks slots sIdx ws wIdx).lines.zip slots),
        pr.1.length ≤ slotMaxLines cfg sizePx pr.2 := by
  intro slots
  induction slots with
  | nil => intro sIdx ws wIdx pr hpr; simp [flowSlotsGo] at hpr
  | cons slot rest ih =>
    intro sIdx ws wIdx pr hpr
    simp only [flowSlotsGo, List.zip_cons_cons, List.mem_cons] at hpr
    rcases hpr with h | h
    · subst h
      exact wrapSlot_length _ _ _ _ _
    · exact ih _ _ _ pr h

theorem indepGo_lines_length (cfg : FlowConfig) (sizePx : ℚ) :
    ∀ (slots : List FlowSlot) (wls : List (List String)),
      ∀ pr ∈ ((indepGo cfg sizePx slots wls).lines.zip slots),
        pr.1.length ≤ slotMaxLines cfg sizePx pr.2 := by
  intro slots
  induction slots with
  | nil => intro wls pr hpr; simp [indepGo] at hpr
  | cons slot rest ih =>
    intro wls pr hpr
    cases wls with
    | nil => simp [indepGo] at hpr
    | cons ws wrest =>
      simp only [indepGo] at hpr
      split at hpr
      · simp only [List.zip_cons_cons, List.mem_cons] at hpr
        rcases hpr with h | h
        · subst h
          exact wrapSlot_length _ _ _ _ _
        · exact ih wrest pr h
      · simp only [List.zip_cons_cons, List.zip_nil_left, List.mem_cons,
          List.not_mem_nil, or_false] at hpr
        subst hpr
        exact wrapSlot_length _ _ _ _ _

/-! ## Claim C4: lines per slot versus line capacity -/

/-- Configuration for the C4 counterexample: viewport 100 by 100, line height 1,
and a measurement giving the word `Hi` width 20 and every other text width 1000. -/
def cfg4 : FlowConfig :=
  ⟨100, 100, 1, fun _ s => if s = "Hi" then 20 else 1000⟩

/-- Slot for the C4 counterexample: 50vw wide but only 5vh tall. -/
def slot4 : FlowSlot := ⟨0, 0, 50, 5, none⟩

/-- C4 counterexample: at font size 10 the capacity formula of the claim gives
`floor(5px / (10px * 1)) = 0` lines for `slot4`, yet the layout places the
fitting word `Hi` on one line: the code caps lines with
`Math.max(1, floor(slotPxH / (sizePx * lineHeight)))`, which is 1 here, so the
bound stated by the claim (without the `max 1`) is violated. -/
theorem C4_counterexample :
    ¬ (∀ pr ∈ ((layoutAt cfg4 ["Hi"] [slot4] [] 10).lines.zip [slot4]),
        (pr.1.length : ℤ) ≤ Int.floor (slotPxH cfg4 pr.2 / (10 * cfg4.lineHeight))) := by
  intro h
  have hlines : (layoutAt cfg4 ["Hi"] [slot4] [] 10).lines = [["Hi"]] := by
    norm_num +decide [layoutAt, flowSlotsGo, sortBreaks, wrapSlot, wrapLine,
      slotMaxLines, capLines, slotPxW, slotPxH, cfg4, slot4]
  have hmem : (["Hi"], slot4) ∈ ((layoutAt cfg4 ["Hi"] [slot4] [] 10).lines.zip [slot4]) := by
    rw [hlines]
    exact List.mem_singleton.mpr rfl
  have hbound := h (["Hi"], slot4) hmem
  have hfloor : Int.floor (slotPxH cfg4 slot4 / (10 * cfg4.lineHeight)) = 0 := by
    norm_num [slotPxH, cfg4, slot4]
  rw [hfloor] at hbound
  norm_num at hbound

/-- C4 amended: in both flow mode and independent mode, the number of lines a
slot receives never exceeds `max(1, floor(slotHeightPx / (fontSizePx *
lineHeight)))`, further capped by the `maxLines` of the slot when present and
positive (this is `slotMaxLines`, the cap the code computes); the hypothesis
`0 < sizePx * lineHeight` restricts the statement to the configurations where
the rational model of `Math.floor` agrees with JavaScript. -/
theorem C4_amended (cfg : FlowConfig) (sizePx : ℚ) (_hpos : 0 < sizePx * cfg.lineHeight)
    (words : List String) (slots : List FlowSlot) (breaks : List ℕ)
    (slotWordLists : List (List String)) :
    (∀ pr ∈ ((layoutAt cfg words slots breaks sizePx).lines.zip slots),
      pr.1.length ≤ slotMaxLines cfg sizePx pr.2) ∧
    (∀ pr ∈ ((layoutAtIndependent cfg slotWordLists slots sizePx).lines.zip slots),
      pr.1.length ≤ slotMaxLines cfg sizePx pr.2) := by
  constructor
  · intro pr hpr
    exact flowSlotsGo_lines_length cfg sizePx (sortBreaks breaks) slots 0 words 0 pr hpr
  · intro pr hpr
    exact indepGo_lines_length cfg sizePx slots slotWordLists pr hpr

/-- C4 witness: the amended bound evaluated on the counterexample
configuration, where the slot holds exactly one line and the cap computed by the code is 1. -/
theorem C4_witness :
    (∀ pr ∈ ((layoutAt cfg4 ["Hi"] [slot4] [] 10).lines.zip [slot4]),
      pr.1.length ≤ slotMaxLines cfg4 10 pr.2) ∧
    (∀ pr ∈ ((layoutAtIndependent cfg4 [["Hi"]] [slot4] 10).lines.zip [slot4]),
      pr.1.length ≤ slotMaxLines cfg4 10 pr.2) :=
  C4_amended cfg4 10 (by norm_num [cfg4]) ["Hi"] [slot4] [] [["Hi"]]

/-! ## Claim C6: line widths under the greedy wrapper -/

/-- C6: for a slot of pixel width `W`, (1) when every word measures strictly
below `W`, every line the greedy wrapper produces measures at most `W`;
(2) a single word measuring more than `W` is placed alone on its own line and
wrapping completes (returning that word as the only line, with no words left). -/
theorem C6_greedy_wrap (m : String → ℚ) (W : ℚ) :
    (∀ (ws : List String) (b : ℕ), (∀ w ∈ ws, m w < W) →
      ∀ l ∈ (wrapSlot m W b ws "").1, m l ≤ W) ∧
    (∀ (w : String) (b : ℕ), W < m w → wrapSlot m W (b + 1) [w] "" = ([w], [])) := by
  constructor
  · intro ws b hall l hl
    rcases wrapSlot_lines m W b ws "" (Or.inl rfl) l hl with h | h
    · exact h
    · exact (hall l h).le
  · intro w b hw
    have h1 : wrapLine m W [w] "" = ("", [w]) := by
      unfold wrapLine
      rw [if_pos rfl, if_neg (not_le.mpr hw)]
    unfold wrapSlot
    rw [h1]
    simp [wrapSlot_nil_words]

/-- Measurement for the C6 witness: width 9 for the long word, 1 otherwise. -/
def mEx : String → ℚ := fun s => if s = "looooong" then 9 else 1

/-- C6 witness: with slot width 5, the words `a` and `bb` (width 1) wrap into
lines of width at most 5, and the lone word of width 9 lands alone on its line. -/
theorem C6_witness :
    (∀ l ∈ (wrapSlot mEx 5 3 ["a", "bb"] "").1, mEx l ≤ 5) ∧
    wrapSlot mEx 5 3 ["looooong"] "" = (["looooong"], []) :=
  ⟨(C6_greedy_wrap mEx 5).1 ["a", "bb"] 3 (by
      intro w hw
      rcases List.mem_cons.mp hw with h | h
      · subst h; norm_num +decide [mEx]
      · rw [List.mem_singleton] at h; subst h; norm_num +decide [mEx]),
   (C6_greedy_wrap mEx 5).2 "looooong" 2 (by norm_num +decide [mEx])⟩

/-! ## Helper lemmas about the auto-sizing search -/

theorem autoGo_result (layout : ℕ → LayoutResult) (target : ℚ) (maxF : ℕ) :
    ∀ (fuel : ℕ) (best : LayoutResult) (sz : ℕ),
      autoGo layout target maxF fuel best sz = best ∨
      ∃ n, sz ≤ n ∧ n ≤ maxF ∧ autoGo layout target maxF fuel best sz = layout n := by
  intro fuel
  induction fuel with
  | zero => intro best sz; left; rfl
  | succ fuel ih =>
    intro best sz
    unfold autoGo
    by_cases h1 : maxF < sz
    · rw [if_pos h1]; left; rfl
    · rw [if_neg h1]
      by_cases h2 : (layout sz).allWordsFit = false
      · rw [if_pos h2]; left; rfl
      · rw [if_neg h2]
        by_cases h3 : target ≤ (layout sz).fillRatio
        · rw [if_pos h3]
          right
          exact ⟨sz, le_rfl, not_lt.mp h1, rfl⟩
        · rw [if_neg h3]
          rcases ih (layout sz) (sz + 1) with h | ⟨n, hn1, hn2, hn⟩
          · right; exact ⟨sz, le_rfl, not_lt.mp h1, h⟩
          · right; exact ⟨n, by omega, hn2, hn⟩

theorem autoGo_mono (layout : ℕ → LayoutResult) (maxF : ℕ)
    (hsz : ∀ n : ℕ, (layout n).sizePx = (n : ℚ)) (t1 t2 : ℚ) (ht : t1 ≤ t2) :
    ∀ (fuel : ℕ) (best : LayoutResult) (sz : ℕ), best.sizePx ≤ (sz : ℚ) →
      (autoGo layout t1 maxF fuel best sz).sizePx ≤
      (autoGo layout t2 maxF fuel best sz).sizePx := by
  intro fuel
  induction fuel with
  | zero => intro best sz _; exact le_rfl
  | succ fuel ih =>
    intro best sz hb
    unfold autoGo
    by_cases h1 : maxF < sz
    · simp only [if_pos h1]
      exact le_rfl
    · simp only [if_neg h1]
      by_cases h2 : (layout sz).allWordsFit = false
      · simp only [if_pos h2]
        exact le_rfl
      · simp only [if_neg h2]
        by_cases h3 : t2 ≤ (layout sz).fillRatio
        · rw [if_pos (le_trans ht h3), if_pos h3]
        · rw [if_neg h3]
          by_cases h4 : t1 ≤ (layout sz).fillRatio
          · rw [if_pos h4]
            rcases autoGo_result layout t2 maxF fuel (layout sz) (sz + 1) with
              h | ⟨n, hn1, hn2, hn⟩
            · rw [h]
            · rw [hn, hsz, hsz]
              exact_mod_cast (by omega : sz ≤ n)
          · rw [if_neg h4]
            exact ih (layout sz) (sz + 1) (by rw [hsz]; exact_mod_cast Nat.le_succ sz)

theorem autoGo_spec (layout : ℕ → LayoutResult) (target : ℚ) (maxF : ℕ) :
    ∀ (fuel b : ℕ), maxF + 1 ≤ fuel + (b + 1) →
      ∃ n, b ≤ n ∧
        autoGo layout target maxF fuel (layout b) (b + 1) = layout n ∧
        (n ≤ maxF ∨ n = b) ∧
        (∀ k, b < k → k ≤ n → (layout k).allWordsFit = true) ∧
        (∀ k, b < k → k < n → ¬ target ≤ (layout k).fillRatio) ∧
        (n = maxF ∨ target ≤ (layout n).fillRatio ∨
          (layout (n + 1)).allWordsFit = false ∨ (n = b ∧ maxF < b + 1)) := by
  intro fuel
  induction fuel with
  | zero =>
    intro b hfb
    refine ⟨b, le_rfl, rfl, Or.inr rfl, ?_, ?_, ?_⟩
    · intro k hk1 hk2; exact absurd hk2 (by omega)
    · intro k hk1 hk2; exact absurd hk2 (by omega)
    · right; right; right; exact ⟨rfl, by omega⟩
  | succ fuel ih =>
    intro b hfb
    unfold autoGo
    by_cases h1 : maxF < b + 1
    · rw [if_pos h1]
      refine ⟨b, le_rfl, rfl, Or.inr rfl, ?_, ?_, ?_⟩
      · intro k hk1 hk2; exact absurd hk2 (by omega)
      · intro k hk1 hk2; exact absurd hk2 (by omega)
      · right; right; right; exact ⟨rfl, h1⟩
    · rw [if_neg h1]
      by_cases h2 : (layout (b + 1)).allWordsFit = false
      · rw [if_pos h2]
        refine ⟨b, le_rfl, rfl, Or.inr rfl, ?_, ?_, ?_⟩
        · intro k hk1 hk2; exact absurd hk2 (by omega)
        · intro k hk1 hk2; exact absurd hk2 (by omega)
        · right; right; left; exact h2
      · rw [if_neg h2]
        have h2t : (layout (b + 1)).allWordsFit = true := by
          cases h : (layout (b + 1)).allWordsFit
          · exact absurd h h2
          · rfl
        by_cases h3 : target ≤ (layout (b + 1)).fillRatio
        · rw [if_pos h3]
          refine ⟨b + 1, Nat.le_succ b, rfl, Or.inl (not_lt.mp h1), ?_, ?_, ?_⟩
          · intro k hk1 hk2
            have hk : k = b + 1 := by omega
            rw [hk]; exact h2t
          · intro k hk1 hk2; exact absurd hk2 (by omega)
          · right; left; exact h3
        · rw [if_neg h3]
          obtain ⟨n, hn1, hn2, hn3, hn4, hn5, hn6⟩ := ih (b + 1) (by omega)
          refine ⟨n, by omega, hn2, ?_, ?_, ?_, ?_⟩
          · rcases hn3 with h | h
            · left; exact h
            · left; omega
          · intro k hk1 hk2
            by_cases hk : k = b + 1
            · rw [hk]; exact h2t
            · exact hn4 k (by omega) hk2
          · intro k hk1 hk2
            by_cases hk : k = b + 1
            · rw [hk]; exact h3
            · exact hn5 k (by omega) hk2
          · rcases hn6 with h | h | h | ⟨hna, hnb⟩
            · left; exact h
            · right; left; exact h
            · right; right; left; exact h
            · left; omega

/-! ## Claim C5: the auto-sizing search -/

/-- Configuration for the C5 counterexample: the single word `AAAA` always
measures 40 pixels, anything else 1000. -/
def cfg5 : FlowConfig :=
  ⟨100, 100, 1, fun _ s => if s = "AAAA" then 40 else 1000⟩

/-- Slot for the C5 counterexample: 30vw wide (30px here), full height. -/
def slot5 : FlowSlot := ⟨0, 0, 30, 100, none⟩

/-- C5 counterexample: with sizes 10..11 and target fill ratio 1, the search
chooses (hence accepts) size 11 because the layout at size 11 places all words
(`allWordsFit`), even though the word `AAAA` measures 40px and so does NOT fit
within the 30px slot width — it is force-placed alone on its line.  The
acceptance test of the code is word placement, not slot-width fit, so the
claim as stated is false. -/
theorem C5_counterexample :
    (recalcAuto cfg5 ["AAAA"] [slot5] [] 1 10 11).sizePx = 11 ∧
    (layoutAt cfg5 ["AAAA"] [slot5] [] 11).allWordsFit = true ∧
    slotPxW cfg5 slot5 < cfg5.measure 11 "AAAA" := by
  refine ⟨?_, ?_, ?_⟩
  · norm_num +decide [recalcAuto, autoSizeSearch, autoGo, layoutAt, flowSlotsGo,
      sortBreaks, wrapSlot, wrapLine, slotMaxLines, capLines, slotPxW, slotPxH,
      cfg5, slot5]
  · norm_num +decide [layoutAt, flowSlotsGo, sortBreaks, wrapSlot, wrapLine,
      slotMaxLines, capLines, slotPxW, slotPxH, cfg5, slot5]
  · norm_num +decide [slotPxW, cfg5, slot5]

/-- C5 amended: the search starts at the minimum size and tries successively
larger integer sizes; a size above the minimum is accepted only if the layout
at that size places every word (`allWordsFit` — which force-places words wider
than their slot rather than rejecting them); the search stops at the first
size above the minimum whose fill ratio meets the target, or just below the
first size at which not all words can be placed, or at the maximum bound; the
minimum size is kept even when nothing larger is feasible. -/
theorem C5_amended (cfg : FlowConfig) (words : List String) (slots : List FlowSlot)
    (breaks : List ℕ) (target : ℚ) (minF maxF : ℕ) (hmm : minF ≤ maxF) :
    ∃ n, minF ≤ n ∧ n ≤ maxF ∧
      recalcAuto cfg words slots breaks target minF maxF =
        layoutAt cfg words slots breaks (n : ℚ) ∧
      (∀ k, minF < k → k ≤ n →
        (layoutAt cfg words slots breaks (k : ℚ)).allWordsFit = true) ∧
      (∀ k, minF < k → k < n →
        (layoutAt cfg words slots breaks (k : ℚ)).fillRatio < target) ∧
      (n = maxF ∨ target ≤ (layoutAt cfg words slots breaks (n : ℚ)).fillRatio ∨
        (layoutAt cfg words slots breaks ((n + 1 : ℕ) : ℚ)).allWordsFit = false) := by
  obtain ⟨n, hn1, hn2, hn3, hn4, hn5, hn6⟩ :=
    autoGo_spec (fun k => layoutAt cfg words slots breaks (k : ℚ)) target maxF
      (maxF + 1 - minF) minF (by omega)
  refine ⟨n, hn1, ?_, hn2, hn4, ?_, ?_⟩
  · rcases hn3 with h | h
    · exact h
    · omega
  · intro k hk1 hk2
    exact not_le.mp (hn5 k hk1 hk2)
  · rcases hn6 with h | h | h | ⟨hna, hnb⟩
    · left; exact h
    · right; left; exact h
    · right; right; exact h
    · left; omega

/-- C5 witness: the amended search characterization at a concrete input
(empty text, sizes 2..2). -/
theorem C5_witness :
    ∃ n : ℕ, 2 ≤ n ∧ n ≤ 2 ∧
      recalcAuto cfg5 [] [] [] 1 2 2 = layoutAt cfg5 [] [] [] (n : ℚ) ∧
      (∀ k, 2 < k → k ≤ n → (layoutAt cfg5 [] [] [] (k : ℚ)).allWordsFit = true) ∧
      (∀ k, 2 < k → k < n → (layoutAt cfg5 [] [] [] (k : ℚ)).fillRatio < 1) ∧
      (n = 2 ∨ (1 : ℚ) ≤ (layoutAt cfg5 [] [] [] (n : ℚ)).fillRatio ∨
        (layoutAt cfg5 [] [] [] ((n + 1 : ℕ) : ℚ)).allWordsFit = false) :=
  C5_amended cfg5 [] [] [] 1 2 2 le_rfl

/-! ## Claim C7: monotonicity of the chosen size in the target fill ratio -/

/-- C7: for fixed text, slots, forced breaks and size bounds, raising the
target fill ratio never lowers the font size chosen by the auto-sizing
search. -/
theorem C7_target_monotone (cfg : FlowConfig) (words : List String)
    (slots : List FlowSlot) (breaks : List ℕ) (minF maxF : ℕ) (t1 t2 : ℚ)
    (ht : t1 ≤ t2) :
    (recalcAuto cfg words slots breaks t1 minF maxF).sizePx ≤
    (recalcAuto cfg words slots breaks t2 minF maxF).sizePx := by
  have hsz : ∀ n : ℕ, (layoutAt cfg words slots breaks (n : ℚ)).sizePx = (n : ℚ) :=
    fun n => rfl
  exact autoGo_mono (fun k => layoutAt cfg words slots breaks (k : ℚ)) maxF hsz t1 t2 ht
    (maxF + 1 - minF) (layoutAt cfg words slots breaks ((minF : ℕ) : ℚ)) (minF + 1)
    (by rw [hsz minF]; exact_mod_cast Nat.le_succ minF)

/-- C7 witness: raising the target from 1/10 to 1 on the C5 configuration
does not lower the chosen size. -/
theorem C7_witness :
    (recalcAuto cfg5 ["AAAA"] [slot5] [] (1/10) 10 11).sizePx ≤
    (recalcAuto cfg5 ["AAAA"] [slot5] [] 1 10 11).sizePx :=
  C7_target_monotone cfg5 ["AAAA"] [slot5] [] 10 11 (1/10) 1 (by norm_num)

/-! ## Helper lemmas about list minima and maxima -/

theorem listMin_cons (a b : ℚ) (l : List ℚ) : listMin a (b :: l) = listMin (min a b) l := rfl

theorem listMax_cons (a b : ℚ) (l : List ℚ) : listMax a (b :: l) = listMax (max a b) l := rfl

theorem listMin_le_init (l : List ℚ) : ∀ a : ℚ, listMin a l ≤ a := by
  induction l with
  | nil => intro a; exact le_rfl
  | cons b l ih =>
    intro a
    rw [listMin_cons]
    exact le_trans (ih (min a b)) (min_le_left a b)

theorem listMin_le_mem (l : List ℚ) : ∀ (a : ℚ), ∀ x ∈ l, listMin a l ≤ x := by
  induction l with
  | nil => intro a x hx; exact absurd hx (List.not_mem_nil x)
  | cons b l ih =>
    intro a x hx
    rw [listMin_cons]
    rw [List.mem_cons] at hx
    rcases hx with h | h
    · subst h
      exact le_trans (listMin_le_init l (min a x)) (min_le_right a x)
    · exact ih (min a b) x h

theorem listMin_eq_mem (l : List ℚ) : ∀ a : ℚ, listMin a l = a ∨ listMin a l ∈ l := by
  induction l with
  | nil => intro a; left; rfl
  | cons b l ih =>
    intro a
    rw [listMin_cons]
    rcases ih (min a b) with h | h
    · rcases min_choice a b with hm | hm
      · left; rw [h, hm]
      · right; rw [h, hm]; exact List.mem_cons_self b l
    · right; exact List.mem_cons_of_mem b h

theorem listMax_init_le (l : List ℚ) : ∀ a : ℚ, a ≤ listMax a l := by
  induction l with
  | nil => intro a; exact le_rfl
  | cons b l ih =>
    intro a
    rw [listMax_cons]
    exact le_trans (le_max_left a b) (ih (max a b))

theorem listMax_mem_le (l : List ℚ) : ∀ (a : ℚ), ∀ x ∈ l, x ≤ listMax a l := by
  induction l with
  | nil => intro a x hx; exact absurd hx (List.not_mem_nil x)
  | cons b l ih =>
    intro a x hx
    rw [listMax_cons]
    rw [List.mem_cons] at hx
    rcases hx with h | h
    · subst h
      exact le_trans (le_max_right a x) (listMax_init_le l (max a x))
    · exact ih (max a b) x h

theorem listMax_eq_mem (l : List ℚ) : ∀ a : ℚ, listMax a l = a ∨ listMax a l ∈ l := by
  induction l with
  | nil => intro a; left; rfl
  | cons b l ih =>
    intro a
    rw [listMax_cons]
    rcases ih (max a b) with h | h
    · rcases max_choice a b with hm | hm
      · left; rw [h, hm]
      · right; rw [h, hm]; exact List.mem_cons_self b l
    · right; exact List.mem_cons_of_mem b h

/-! ## Claim C10: slot collapse in flowing mode -/

/-- C10: in flowing mode (`slotTexts` absent) with the default
`collapseToSingle = true` and more than one slot, `effectiveSlots` replaces
the slot list by a single slot with no line cap that is exactly the bounding
box of the supplied slots: it contains every supplied slot, and each of its
four edges is attained by some supplied slot.  Layout then sees only this one
slot, so the individual rectangles are ignored and words never flow across
distinct slots. -/
theorem C10_collapse (slots : List FlowSlot) (h2 : 1 < slots.length) :
    ∃ b : FlowSlot,
      effectiveSlots none true slots = [b] ∧ b.maxLines = none ∧
      (∀ s ∈ slots, b.leftVw ≤ s.leftVw ∧ b.topVh ≤ s.topVh ∧
        s.leftVw + s.widthVw ≤ b.leftVw + b.widthVw ∧
        s.topVh + s.heightVh ≤ b.topVh + b.heightVh) ∧
      (∃ s ∈ slots, b.leftVw = s.leftVw) ∧
      (∃ s ∈ slots, b.topVh = s.topVh) ∧
      (∃ s ∈ slots, b.leftVw + b.widthVw = s.leftVw + s.widthVw) ∧
      (∃ s ∈ slots, b.topVh + b.heightVh = s.topVh + s.heightVh) := by
  cases slots with
  | nil => simp at h2
  | cons s0 rest =>
    refine ⟨⟨listMin s0.leftVw (rest.map fun s => s.leftVw),
             listMin s0.topVh (rest.map fun s => s.topVh),
             listMax (s0.leftVw + s0.widthVw) (rest.map fun s => s.leftVw + s.widthVw) -
               listMin s0.leftVw (rest.map fun s => s.leftVw),
             listMax (s0.topVh + s0.heightVh) (rest.map fun s => s.topVh + s.heightVh) -
               listMin s0.topVh (rest.map fun s => s.topVh), none⟩,
      ?_, rfl, ?_, ?_, ?_, ?_, ?_⟩
    · unfold effectiveSlots
      rw [if_neg (by simp [independentMode])]
      rw [if_neg (by
        rintro (h | h)
        · exact Bool.noConfusion h
        · exact absurd h2 (not_lt.mpr h))]
    · intro s hs
      have hL : listMin s0.leftVw (rest.map fun s => s.leftVw) +
          (listMax (s0.leftVw + s0.widthVw) (rest.map fun s => s.leftVw + s.widthVw) -
            listMin s0.leftVw (rest.map fun s => s.leftVw)) =
          listMax (s0.leftVw + s0.widthVw) (rest.map fun s => s.leftVw + s.widthVw) := by
        ring
      have hT : listMin s0.topVh (rest.map fun s => s.topVh) +
          (listMax (s0.topVh + s0.heightVh) (rest.map fun s => s.topVh + s.heightVh) -
            listMin s0.topVh (rest.map fun s => s.topVh)) =
          listMax (s0.topVh + s0.heightVh) (rest.map fun s => s.topVh + s.heightVh) := by
        ring
      rw [List.mem_cons] at hs
      refine ⟨?_, ?_, ?_, ?_⟩
      · rcases hs with h | h
        · rw [h]; exact listMin_le_init _ _
        · exact listMin_le_mem _ _ _ (List.mem_map_of_mem _ h)
      · rcases hs with h | h
        · rw [h]; exact listMin_le_init _ _
        · exact listMin_le_mem _ _ _ (List.mem_map_of_mem _ h)
      · rw [hL]
        rcases hs with h | h
        · rw [h]; exact listMax_init_le _ _
        · exact listMax_mem_le _ _ _ (List.mem_map_of_mem _ h)
      · rw [hT]
        rcases hs with h | h
        · rw [h]; exact listMax_init_le _ _
        · exact listMax_mem_le _ _ _ (List.mem_map_of_mem _ h)
    · rcases listMin_eq_mem (rest.map fun s => s.leftVw) s0.leftVw with h | h
      · exact ⟨s0, List.mem_cons_self s0 rest, h⟩
      · obtain ⟨s, hs, heq⟩ := List.mem_map.mp h
        exact ⟨s, List.mem_cons_of_mem s0 hs, heq.symm⟩
    · rcases listMin_eq_mem (rest.map fun s => s.topVh) s0.topVh with h | h
      · exact ⟨s0, List.mem_cons_self s0 rest, h⟩
      · obtain ⟨s, hs, heq⟩ := List.mem_map.mp h
        exact ⟨s, List.mem_cons_of_mem s0 hs, heq.symm⟩
    · have hL : listMin s0.leftVw (rest.map fun s => s.leftVw) +
          (listMax (s0.leftVw + s0.widthVw) (rest.map fun s => s.leftVw + s.widthVw) -
            listMin s0.leftVw (rest.map fun s => s.leftVw)) =
          listMax (s0.leftVw + s0.widthVw) (rest.map fun s => s.leftVw + s.widthVw) := by
        ring
      rw [hL]
      rcases listMax_eq_mem (rest.map fun s => s.leftVw + s.widthVw)
          (s0.leftVw + s0.widthVw) with h | h
      · exact ⟨s0, List.mem_cons_self s0 rest, h⟩
      · obtain ⟨s, hs, heq⟩ := List.mem_map.mp h
        exact ⟨s, List.mem_cons_of_mem s0 hs, heq.symm⟩
    · have hT : listMin s0.topVh (rest.map fun s => s.topVh) +
          (listMax (s0.topVh + s0.heightVh) (rest.map fun s => s.topVh + s.heightVh) -
            listMin s0.topVh (rest.map fun s => s.topVh)) =
          listMax (s0.topVh + s0.heightVh) (rest.map fun s => s.topVh + s.heightVh) := by
        ring
      rw [hT]
      rcases listMax_eq_mem (rest.map fun s => s.topVh + s.heightVh)
          (s0.topVh + s0.heightVh) with h | h
      · exact ⟨s0, List.mem_cons_self s0 rest, h⟩
      · obtain ⟨s, hs, heq⟩ := List.mem_map.mp h
        exact ⟨s, List.mem_cons_of_mem s0 hs, heq.symm⟩

/-- C10 witness: the bounding-box collapse evaluated on two concrete slots. -/
theorem C10_witness :
    ∃ b : FlowSlot,
      effectiveSlots none true [⟨0, 0, 10, 10, none⟩, ⟨5, 5, 10, 10, none⟩] = [b] ∧
      b.maxLines = none ∧
      (∀ s ∈ ([⟨0, 0, 10, 10, none⟩, ⟨5, 5, 10, 10, none⟩] : List FlowSlot),
        b.leftVw ≤ s.leftVw ∧ b.topVh ≤ s.topVh ∧
        s.leftVw + s.widthVw ≤ b.leftVw + b.widthVw ∧
        s.topVh + s.heightVh ≤ b.topVh + b.heightVh) ∧
      (∃ s ∈ ([⟨0, 0, 10, 10, none⟩, ⟨5, 5, 10, 10, none⟩] : List FlowSlot),
        b.leftVw = s.leftVw) ∧
      (∃ s ∈ ([⟨0, 0, 10, 10, none⟩, ⟨5, 5, 10, 10, none⟩] : List FlowSlot),
        b.topVh = s.topVh) ∧
      (∃ s ∈ ([⟨0, 0, 10, 10, none⟩, ⟨5, 5, 10, 10, none⟩] : List FlowSlot),
        b.leftVw + b.widthVw = s.leftVw + s.widthVw) ∧
      (∃ s ∈ ([⟨0, 0, 10, 10, none⟩, ⟨5, 5, 10, 10, none⟩] : List FlowSlot),
        b.topVh + b.heightVh = s.topVh + s.heightVh) :=
  C10_collapse [⟨0, 0, 10, 10, none⟩, ⟨5, 5, 10, 10, none⟩] (by norm_num)

/-! ## Claim C1: release condition at the boundaries -/

/-- C1 counterexample: with pre-event progress `p = 1` (mid-range, capturing,
scroll locked), viewport height 100 and wheel delta `dy = 1000 > 0`, the event
updates Progress to `2 = MAX_P` (so the updated Progress reaches the high
boundary and the delta points outward), yet the machine keeps capture and the
page-scroll lock: `endCapturingIfNeeded` tests the pre-event `p = 1`, not the
updated value, so the claim as stated is false for this event. -/
theorem C1_counterexample :
    (handleDelta 100 ⟨1, true, true⟩ 1000).p = MAX_P ∧ (0 : ℚ) < 1000 ∧
    (handleDelta 100 ⟨1, true, true⟩ 1000).isCapturing = true ∧
    (handleDelta 100 ⟨1, true, true⟩ 1000).scrollLocked = true := by
  have hs1 : (startCapturingIfNeeded ⟨1, true, true⟩ 1000).isCapturing = true := by
    rw [startCapturing_of_capturing ⟨1, true, true⟩ 1000 rfl]
  have hnext : applyDelta 100 1 1000 = MAX_P := by
    unfold applyDelta
    rw [MAX_P_eq]
    rw [max_eq_left (by norm_num : (1 : ℚ) ≤ 100)]
    rw [show (1 : ℚ) + 1000 * (1 / (100 * 4)) = 7 / 2 by norm_num]
    rw [max_eq_left (by norm_num : (0 : ℚ) ≤ 7 / 2)]
    exact min_eq_right (by norm_num)
  have hk := handleDelta_keep 100 ⟨1, true, true⟩ 1000 hs1
    (by rintro ⟨h, -⟩; norm_num at h)
    (by rintro ⟨h, -⟩; rw [MAX_P_eq] at h; norm_num at h)
  refine ⟨?_, by norm_num, hk.1, ?_⟩
  · rw [handleDelta_p_of_capturing 100 ⟨1, true, true⟩ 1000 hs1]
    exact hnext
  · rw [hk.2, startCapturing_of_capturing ⟨1, true, true⟩ 1000 rfl]

/-- C1 amended: during a captured event, capture and the page-scroll lock are
released exactly when the PRE-EVENT Progress is already at/past a boundary and
the delta points outward (`p ≤ 0` with a negative delta, or `p ≥ MAX_P` with a
positive delta); an event that merely moves Progress to a boundary from the
interior keeps capture, and the release happens on the next outward event. -/
theorem C1_amended_release_iff (v : ℚ) (s : OverlayMachine) (dy : ℚ)
    (hcap : s.isCapturing = true) (hlock : s.scrollLocked = true) :
    ((handleDelta v s dy).isCapturing = false ↔
      ((s.p ≤ 0 ∧ dy < 0) ∨ (MAX_P ≤ s.p ∧ 0 < dy))) ∧
    (handleDelta v s dy).scrollLocked = (handleDelta v s dy).isCapturing := by
  by_cases h1 : s.p ≤ 0 ∧ dy < 0
  · rw [handleDelta_release_low v s dy hcap h1.1 h1.2]
    simp [h1]
  · by_cases h2 : MAX_P ≤ s.p ∧ 0 < dy
    · rw [handleDelta_release_high v s dy hcap h2.1 h2.2]
      simp [h2]
    · have hs1 : (startCapturingIfNeeded s dy).isCapturing = true := by
        rw [startCapturing_of_capturing s dy hcap]; exact hcap
      have hk := handleDelta_keep v s dy hs1 h1 h2
      rw [startCapturing_of_capturing s dy hcap] at hk
      constructor
      · rw [hk.1]
        simp [h1, h2]
      · rw [hk.1, hk.2, hlock]

/-- C1 amended witness: at `p = MAX_P` with a positive delta, the captured
event does release capture and the lock. -/
theorem C1_amended_witness :
    (handleDelta 100 ⟨MAX_P, true, true⟩ 5).isCapturing = false ∧
    (handleDelta 100 ⟨MAX_P, true, true⟩ 5).scrollLocked =
      (handleDelta 100 ⟨MAX_P, true, true⟩ 5).isCapturing :=
  ⟨(C1_amended_release_iff 100 ⟨MAX_P, true, true⟩ 5 rfl rfl).1.mpr
      (Or.inr ⟨le_rfl, by norm_num⟩),
   (C1_amended_release_iff 100 ⟨MAX_P, true, true⟩ 5 rfl rfl).2⟩

/-! ## Claim C2: the capture/release life cycle -/

/-- C2: from `p = 0` not capturing, a positive delta starts capture; while
capturing with `0 ≤ p < MAX_P`, a positive delta keeps capture; at `p = MAX_P`
while capturing, one further positive delta releases capture; at `p = MAX_P`
not capturing, a negative delta re-enters capture. -/
theorem C2_capture_cycle (v : ℚ) :
    (∀ d : ℚ, 0 < d → (handleDelta v ⟨0, false, false⟩ d).isCapturing = true) ∧
    (∀ (s : OverlayMachine) (d : ℚ), s.isCapturing = true → 0 ≤ s.p → s.p < MAX_P →
      0 < d → (handleDelta v s d).isCapturing = true) ∧
    (∀ d : ℚ, 0 < d → (handleDelta v ⟨MAX_P, true, true⟩ d).isCapturing = false) ∧
    (∀ d : ℚ, d < 0 → (handleDelta v ⟨MAX_P, false, false⟩ d).isCapturing = true) := by
  refine ⟨?_, ?_, ?_, ?_⟩
  · intro d hd
    have hs1 : startCapturingIfNeeded ⟨0, false, false⟩ d = ⟨0, true, true⟩ := by
      unfold startCapturingIfNeeded
      rw [if_pos rfl, if_pos (Or.inr (Or.inl ⟨rfl, hd⟩))]
    have hk := handleDelta_keep v ⟨0, false, false⟩ d (by rw [hs1])
      (by rintro ⟨-, h⟩; exact absurd hd (not_lt.mpr h.le))
      (by rintro ⟨h, -⟩; rw [MAX_P_eq] at h; norm_num at h)
    exact hk.1
  · intro s d hcap hp0 hp1 hd
    have hs1 : (startCapturingIfNeeded s d).isCapturing = true := by
      rw [startCapturing_of_capturing s d hcap]; exact hcap
    have hk := handleDelta_keep v s d hs1
      (by rintro ⟨-, h⟩; exact absurd hd (not_lt.mpr h.le))
      (by rintro ⟨h, -⟩; exact absurd hp1 (not_lt.mpr h))
    exact hk.1
  · intro d hd
    rw [handleDelta_release_high v ⟨MAX_P, true, true⟩ d rfl le_rfl hd]
  · intro d hd
    have hs1 : startCapturingIfNeeded ⟨MAX_P, false, false⟩ d = ⟨MAX_P, true, true⟩ := by
      unfold startCapturingIfNeeded
      rw [if_pos rfl, if_pos (Or.inr (Or.inr ⟨rfl, hd⟩))]
    have hk := handleDelta_keep v ⟨MAX_P, false, false⟩ d (by rw [hs1])
      (by rintro ⟨h, -⟩; rw [MAX_P_eq] at h; norm_num at h)
      (by rintro ⟨-, h⟩; exact absurd hd (not_lt.mpr h.le))
    exact hk.1

/-- C2 witness: the four transitions of the capture cycle evaluated at
viewport height 800 and concrete deltas. -/
theorem C2_witness :
    (handleDelta 800 ⟨0, false, false⟩ 120).isCapturing = true ∧
    (handleDelta 800 ⟨1, true, true⟩ 120).isCapturing = true ∧
    (handleDelta 800 ⟨MAX_P, true, true⟩ 120).isCapturing = false ∧
    (handleDelta 800 ⟨MAX_P, false, false⟩ (-120)).isCapturing = true :=
  ⟨(C2_capture_cycle 800).1 120 (by norm_num),
   (C2_capture_cycle 800).2.1 ⟨1, true, true⟩ 120 rfl (by norm_num)
     (by rw [MAX_P_eq]; norm_num) (by norm_num),
   (C2_capture_cycle 800).2.2.1 120 (by norm_num),
   (C2_capture_cycle 800).2.2.2 (-120) (by norm_num)⟩

/-! ## Claim C3: Progress stays in `[0, MAX_P]` -/

/-- C3: `applyDelta` always lands in `[0, MAX_P]` with `MAX_P = 1 + EXTRA = 2`,
and consequently any sequence of wheel/touch events starting with Progress in
`[0, MAX_P]` keeps Progress in `[0, MAX_P]`. -/
theorem C3_progress_clamped (v : ℚ) (s : OverlayMachine) (ds : List ℚ)
    (hp0 : 0 ≤ s.p) (hp1 : s.p ≤ MAX_P) :
    (∀ p dy : ℚ, 0 ≤ applyDelta v p dy ∧ applyDelta v p dy ≤ MAX_P) ∧
    MAX_P = 1 + EXTRA_SLICES_SCROLL ∧ MAX_P = 2 ∧
    (0 ≤ (ds.foldl (handleDelta v) s).p ∧ (ds.foldl (handleDelta v) s).p ≤ MAX_P) := by
  refine ⟨fun p dy => ⟨applyDelta_nonneg v p dy, applyDelta_le_max v p dy⟩,
    rfl, MAX_P_eq, ?_⟩
  induction ds generalizing s with
  | nil => exact ⟨hp0, hp1⟩
  | cons d ds ih =>
    simp only [List.foldl_cons]
    apply ih
    · rcases handleDelta_p_cases v s d with h | h
      · rw [h]; exact hp0
      · rw [h]; exact applyDelta_nonneg v s.p d
    · rcases handleDelta_p_cases v s d with h | h
      · rw [h]; exact hp1
      · rw [h]; exact applyDelta_le_max v s.p d

/-- C3 witness: the clamping bounds evaluated on a concrete event sequence. -/
theorem C3_witness :
    0 ≤ applyDelta 800 1 5000 ∧ applyDelta 800 1 5000 ≤ MAX_P ∧
    0 ≤ (([300, -9000, 12000] : List ℚ).foldl (handleDelta 800) ⟨0, false, false⟩).p ∧
    (([300, -9000, 12000] : List ℚ).foldl (handleDelta 800) ⟨0, false, false⟩).p ≤ MAX_P :=
  ⟨((C3_progress_clamped 800 ⟨0, false, false⟩ [300, -9000, 12000] (by norm_num)
      (by rw [MAX_P_eq]; norm_num)).1 1 5000).1,
   ((C3_progress_clamped 800 ⟨0, false, false⟩ [300, -9000, 12000] (by norm_num)
      (by rw [MAX_P_eq]; norm_num)).1 1 5000).2,
   (C3_progress_clamped 800 ⟨0, false, false⟩ [300, -9000, 12000] (by norm_num)
      (by rw [MAX_P_eq]; norm_num)).2.2.2.1,
   (C3_progress_clamped 800 ⟨0, false, false⟩ [300, -9000, 12000] (by norm_num)
      (by rw [MAX_P_eq]; norm_num)).2.2.2.2⟩

/-! ## Claim C8: the reveal-fraction cutoff -/

/-- C8: the visible-character cutoff `floor(totalChars * revealT)` is monotone
non-decreasing in Progress, equals 0 at the window start `p = SLICE_START`,
and equals `totalChars` at and after the window end `p = MAX_P`. -/
theorem C8_reveal_cutoff (total : ℕ) (p₁ p₂ p : ℚ) (h12 : p₁ ≤ p₂) (hp : MAX_P ≤ p) :
    visibleChars total (revealT p₁) ≤ visibleChars total (revealT p₂) ∧
    visibleChars total (revealT SLICE_START) = 0 ∧
    visibleChars total (revealT p) = total := by
  have hwin : (0 : ℚ) < SLICE_END - SLICE_START := by
    norm_num [SLICE_END, SLICE_START, MAX_P, EXTRA_SLICES_SCROLL]
  refine ⟨?_, ?_, ?_⟩
  · have ht : revealT p₁ ≤ revealT p₂ := by
      unfold revealT clamp
      have hdiv : (p₁ - SLICE_START) / (SLICE_END - SLICE_START) ≤
          (p₂ - SLICE_START) / (SLICE_END - SLICE_START) :=
        (div_le_div_iff_of_pos_right hwin).mpr (by linarith)
      exact min_le_min (max_le_max hdiv le_rfl) le_rfl
    unfold visibleChars
    exact Int.floor_le_floor (mul_le_mul_of_nonneg_left ht (Nat.cast_nonneg total))
  · have ht : revealT SLICE_START = 0 := by
      unfold revealT clamp
      rw [sub_self, zero_div, max_self]
      exact min_eq_left (by norm_num)
    unfold visibleChars
    rw [ht, mul_zero]
    exact Int.floor_zero
  · have hq : (1 : ℚ) ≤ (p - SLICE_START) / (SLICE_END - SLICE_START) := by
      rw [le_div_iff₀ hwin]
      have : SLICE_END ≤ p := by rw [SLICE_END]; exact hp
      linarith
    have ht : revealT p = 1 := by
      unfold revealT clamp
      rw [max_eq_left (le_trans zero_le_one hq), min_eq_right hq]
    unfold visibleChars
    rw [ht, mul_one, Int.floor_natCast]

/-- C8 witness: cutoff values at concrete Progress values with 10 characters. -/
theorem C8_witness :
    visibleChars 10 (revealT 1) ≤ visibleChars 10 (revealT (3/2)) ∧
    visibleChars 10 (revealT SLICE_START) = 0 ∧
    visibleChars 10 (revealT 2) = 10 :=
  ⟨(C8_reveal_cutoff 10 1 (3/2) 2 (by norm_num) (by rw [MAX_P_eq])).1,
   (C8_reveal_cutoff 10 1 (3/2) 2 (by norm_num) (by rw [MAX_P_eq])).2.1,
   (C8_reveal_cutoff 10 1 (3/2) 2 (by norm_num) (by rw [MAX_P_eq])).2.2⟩

end Portfolio
